import Mathlib

set_option maxHeartbeats 1000000
set_option maxRecDepth 10000

/-!
Verification of the interrupt-driven I/O core of the rust-os kernel:
a shallow embedding of the ATA PIO disk driver (src/disk/pio.rs) and of
the keyboard scancode event bridge (src/task/keyboard.rs).

Hardware port I/O is modelled by a trace of register events.  The drive's
successive status-register responses are an input list (running out of
responses models a wait loop that the device never lets terminate, i.e. a
hang), and successive data-register reads are drawn from an input stream
`Nat → Nat` indexed by the number of data-port reads performed so far.
Machine integers (u8, u16, u32) are modelled as `Nat`, with an explicit
`% 256` where the source's u8 arithmetic can wrap.
-/

namespace RustOS

namespace pio

/-- Opcode of the ATA read-sectors command, `READ_COMMAND` in pio.rs. -/
def READ_COMMAND : Nat := 0x20

/-- Opcode of the ATA write-sectors command, `WRITE_COMMAND` in pio.rs. -/
def WRITE_COMMAND : Nat := 0x30

/-- Primary bus I/O base port, `ATA_IO_PORT_PRIMARY` in disk.rs. -/
def ATA_IO_PORT_PRIMARY : Nat := 0x01F0

/-- Secondary bus I/O base port, `ATA_IO_PORT_SECONDARY` in disk.rs. -/
def ATA_IO_PORT_SECONDARY : Nat := 0x0170

/-- Primary bus control base port, `ATA_CONTROL_PORT_PRIMARY` in disk.rs. -/
def ATA_CONTROL_PORT_PRIMARY : Nat := 0x03F6

/-- Secondary bus control base port, `ATA_CONTROL_PORT_SECONDARY` in disk.rs. -/
def ATA_CONTROL_PORT_SECONDARY : Nat := 0x0376

namespace status

/-- Bit positions of the status register, mirroring `status::Bitflags`
with its `repr(u8)` discriminants 0..7. -/
inductive Bitflags where
  | ERR | IDX | CORR | DRQ | SRV | DF | RDY | BSY
  deriving DecidableEq, Repr

/-- Discriminant value of a status flag (the `as u8` cast of the Rust enum). -/
def Bitflags.toNat : Bitflags → Nat
  | .ERR => 0
  | .IDX => 1
  | .CORR => 2
  | .DRQ => 3
  | .SRV => 4
  | .DF => 5
  | .RDY => 6
  | .BSY => 7

/-- The cached status-register byte, `status::Status` in pio.rs. -/
structure Status where
  val : Nat
  deriving DecidableEq, Repr

def Status.error (s : Status) : Bool := decide (s.val &&& (1 <<< Bitflags.ERR.toNat) > 0)

def Status.drive_request (s : Status) : Bool := decide (s.val &&& (1 <<< Bitflags.DRQ.toNat) > 0)

def Status.service_request (s : Status) : Bool := decide (s.val &&& (1 <<< Bitflags.SRV.toNat) > 0)

def Status.drive_fault (s : Status) : Bool := decide (s.val &&& (1 <<< Bitflags.DF.toNat) > 0)

def Status.ready (s : Status) : Bool := decide (s.val &&& (1 <<< Bitflags.RDY.toNat) > 0)

def Status.busy (s : Status) : Bool := decide (s.val &&& (1 <<< Bitflags.BSY.toNat) > 0)

end status

namespace diskError

/-- Bit positions of the error register, mirroring `error::Bitflags`
with its `repr(u8)` discriminants 0..7. -/
inductive Bitflags where
  | AMNF | TKZNF | ABRT | MCR | IDNF | MC | UNC | BBK
  deriving DecidableEq, Repr

/-- Discriminant value of an error flag (the `as u8` cast of the Rust enum). -/
def Bitflags.toNat : Bitflags → Nat
  | .AMNF => 0
  | .TKZNF => 1
  | .ABRT => 2
  | .MCR => 3
  | .IDNF => 4
  | .MC => 5
  | .UNC => 6
  | .BBK => 7

/-- The error-register byte, `error::Error` in pio.rs. -/
structure Error where
  val : Nat
  deriving DecidableEq, Repr

def Error.address_mark_not_found (e : Error) : Bool := decide (e.val &&& (1 <<< Bitflags.AMNF.toNat) > 0)

def Error.track_zero_not_found (e : Error) : Bool := decide (e.val &&& (1 <<< Bitflags.TKZNF.toNat) > 0)

def Error.aborted_command (e : Error) : Bool := decide (e.val &&& (1 <<< Bitflags.ABRT.toNat) > 0)

def Error.media_change_request (e : Error) : Bool := decide (e.val &&& (1 <<< Bitflags.MCR.toNat) > 0)

def Error.id_not_found (e : Error) : Bool := decide (e.val &&& (1 <<< Bitflags.IDNF.toNat) > 0)

def Error.media_changed (e : Error) : Bool := decide (e.val &&& (1 <<< Bitflags.MC.toNat) > 0)

def Error.uncorrectable_data (e : Error) : Bool := decide (e.val &&& (1 <<< Bitflags.UNC.toNat) > 0)

def Error.bad_block (e : Error) : Bool := decide (e.val &&& (1 <<< Bitflags.BBK.toNat) > 0)

end diskError

/-- The two ATA buses, `Bus` in pio.rs. -/
inductive Bus where
  | Primary | Secondary
  deriving DecidableEq, Repr

/-- One event on the register file of the selected bus.  Each constructor
names the register role (the concrete port number is the bus base plus the
fixed offset from the IOPortRead/IOPortWrite enums and is not re-derived
here).  A waitBsy or waitDrq event records a completed polling loop on the
status register. -/
inductive Ev where
  | waitBsy
  | waitDrq
  | wDsel (v : Nat)
  | wSecCount (v : Nat)
  | wLbaLo (v : Nat)
  | wLbaMid (v : Nat)
  | wLbaHigh (v : Nat)
  | wCmd (v : Nat)
  | rData (v : Nat)
  | wData (v : Nat)
  deriving DecidableEq, Repr

/-- Abnormal outcomes of a transfer: `hang` when the supplied list of
status-register responses runs out inside a wait loop (the unbounded
busy-wait never terminating), `indexPanic` when a slice index in the Rust
source would be out of bounds (a Rust panic). -/
inductive DiskErr where
  | hang
  | indexPanic
  deriving DecidableEq, Repr

/-- The wait_bsy loop of pio.rs: read the status register, re-reading while
the BSY flag is set.  Returns the first status byte with BSY clear together
with the remaining device responses. -/
def wait_bsy : List Nat → Option (Nat × List Nat)
  | [] => none
  | s :: rest => if status.Status.busy ⟨s⟩ then wait_bsy rest else some (s, rest)

/-- The wait_drq loop of pio.rs: read the status register, re-reading while
the DRQ flag is clear.  Returns the first status byte with DRQ set together
with the remaining device responses. -/
def wait_drq : List Nat → Option (Nat × List Nat)
  | [] => none
  | s :: rest => if status.Status.drive_request ⟨s⟩ then some (s, rest) else wait_drq rest

/-- The inner word loop of Driver::read, over the listed word offsets:
for each offset w, read one word from the data port (the devIdx-th read of
the data stream dev) and store it at buf position base + w, panicking if
that index is out of bounds.  Returns the updated buffer, the next data
stream index, and the data-port events. -/
def readWords (dev : Nat → Nat) (devIdx : Nat) (buf : List Nat) (base : Nat) :
    List Nat → Except DiskErr (List Nat × Nat × List Ev)
  | [] => .ok (buf, devIdx, [])
  | w :: ws =>
    if base + w < buf.length then
      match readWords dev (devIdx + 1) (buf.set (base + w) (dev devIdx)) base ws with
      | .ok (buf2, di2, tr) => .ok (buf2, di2, .rData (dev devIdx) :: tr)
      | .error e => .error e
    else .error .indexPanic

/-- The inner word loop of Driver::write, over the listed word offsets:
for each offset w, write the word at data position base + w to the data
port, panicking if that index is out of bounds. -/
def writeWords (data : List Nat) (base : Nat) :
    List Nat → Except DiskErr (List Ev)
  | [] => .ok []
  | w :: ws =>
    match data[base + w]? with
    | some v =>
      match writeWords data base ws with
      | .ok tr => .ok (.wData v :: tr)
      | .error e => .error e
    | none => .error .indexPanic

/-- The per-sector loop of Driver::read over the listed sector numbers:
wait for BSY clear, wait for DRQ set, then read 256 words into the buffer
at offset sec * 256.  Threads the device status responses, the cached
status byte (cur, the last status read), and the data stream index. -/
def readSectorsLoop (dev : Nat → Nat) (devIdx : Nat) (statuses : List Nat)
    (cur : Nat) (buf : List Nat) :
    List Nat → Except DiskErr (List Nat × Nat × List Nat × Nat × List Ev)
  | [] => .ok (buf, devIdx, statuses, cur, [])
  | sec :: secs =>
    match wait_bsy statuses with
    | none => .error .hang
    | some (_, st1) =>
      match wait_drq st1 with
      | none => .error .hang
      | some (s2, st2) =>
        match readWords dev devIdx buf (sec * 256) (List.range 256) with
        | .error e => .error e
        | .ok (buf2, di2, trW) =>
          match readSectorsLoop dev di2 st2 s2 buf2 secs with
          | .error e => .error e
          | .ok (buf3, di3, st3, cur3, tr) =>
            .ok (buf3, di3, st3, cur3, .waitBsy :: .waitDrq :: (trW ++ tr))

/-- The per-sector loop of Driver::write over the listed sector numbers:
wait for BSY clear, wait for DRQ set, then write 256 words from the data
slice at offset sec * 256 to the data port. -/
def writeSectorsLoop (data : List Nat) (statuses : List Nat) (cur : Nat) :
    List Nat → Except DiskErr (List Nat × Nat × List Ev)
  | [] => .ok (statuses, cur, [])
  | sec :: secs =>
    match wait_bsy statuses with
    | none => .error .hang
    | some (_, st1) =>
      match wait_drq st1 with
      | none => .error .hang
      | some (s2, st2) =>
        match writeWords data (sec * 256) (List.range 256) with
        | .error e => .error e
        | .ok trW =>
          match writeSectorsLoop data st2 s2 secs with
          | .error e => .error e
          | .ok (st3, cur3, tr) => .ok (st3, cur3, .waitBsy :: .waitDrq :: (trW ++ tr))

/-- The PIO driver state, `Driver` in pio.rs: the cached status byte, the
selected drive index on the bus, and the selected bus. -/
structure Driver where
  status : status.Status
  disk : Nat
  bus : Bus
  deriving DecidableEq, Repr

/-- Driver::read of pio.rs: wait for BSY clear, write the drive-select
byte (disk << 4, wrapping in u8, or-ed with the top 4 LBA bits and mode
bit 6), the sector count, the three low LBA bytes and the 0x20 opcode,
then run the per-sector transfer loop.  Returns the driver with its
cached status updated to the last status byte polled, the updated buffer,
and the register event trace. -/
def Driver.read (d : Driver) (statuses : List Nat) (dev : Nat → Nat)
    (buf : List Nat) (lba : Nat) (sector_count : Nat) :
    Except DiskErr (Driver × List Nat × List Ev) :=
  match wait_bsy statuses with
  | none => .error .hang
  | some (s0, st0) =>
    let top_byte := (lba >>> 24) &&& 0xF
    let setup : List Ev :=
      [.waitBsy, .wDsel (((d.disk <<< 4) % 256) ||| top_byte ||| (0x1 <<< 6)),
       .wSecCount sector_count, .wLbaLo (lba &&& 0xFF),
       .wLbaMid ((lba >>> 8) &&& 0xFF), .wLbaHigh ((lba >>> 16) &&& 0xFF),
       .wCmd READ_COMMAND]
    match readSectorsLoop dev 0 st0 s0 buf (List.range sector_count) with
    | .error e => .error e
    | .ok (buf2, _, _, cur, tr) =>
      .ok ({ d with status := ⟨cur⟩ }, buf2, setup ++ tr)

/-- Driver::write of pio.rs: same register setup as Driver::read but with
the 0x30 opcode, then the per-sector loop writing words from the data
slice to the data port.  The data slice itself is never modified. -/
def Driver.write (d : Driver) (statuses : List Nat) (data : List Nat)
    (lba : Nat) (sector_count : Nat) :
    Except DiskErr (Driver × List Ev) :=
  match wait_bsy statuses with
  | none => .error .hang
  | some (s0, st0) =>
    let top_byte := (lba >>> 24) &&& 0xF
    let setup : List Ev :=
      [.waitBsy, .wDsel (((d.disk <<< 4) % 256) ||| top_byte ||| (0x1 <<< 6)),
       .wSecCount sector_count, .wLbaLo (lba &&& 0xFF),
       .wLbaMid ((lba >>> 8) &&& 0xFF), .wLbaHigh ((lba >>> 16) &&& 0xFF),
       .wCmd WRITE_COMMAND]
    match writeSectorsLoop data st0 s0 (List.range sector_count) with
    | .error e => .error e
    | .ok (_, cur, tr) => .ok ({ d with status := ⟨cur⟩ }, setup ++ tr)

/-- Driver::identify of pio.rs: write the drive-select byte 0xA0 with the
drive index in bit 4, zero the sector count and LBA ports, issue the 0xEC
identify opcode, then read the status register once.  If that byte is zero
the zero-filled 256-word block is returned at once; otherwise wait for BSY
clear, wait for DRQ set, and read the 256-word identification block from
the data port. -/
def Driver.identify (d : Driver) (statuses : List Nat) (dev : Nat → Nat) :
    Except DiskErr (Driver × List Nat × List Ev) :=
  let setup : List Ev :=
    [.wDsel (0xA0 ||| ((d.disk <<< 4) % 256)), .wSecCount 0,
     .wLbaLo 0, .wLbaMid 0, .wLbaHigh 0, .wCmd 0xEC]
  match statuses with
  | [] => .error .hang
  | s :: rest =>
    if s = 0 then
      .ok ({ d with status := ⟨s⟩ }, List.replicate 256 0, setup)
    else
      match wait_bsy rest with
      | none => .error .hang
      | some (_, st1) =>
        match wait_drq st1 with
        | none => .error .hang
        | some (s2, _) =>
          match readWords dev 0 (List.replicate 256 0) 0 (List.range 256) with
          | .error e => .error e
          | .ok (blk, _, trW) =>
            .ok ({ d with status := ⟨s2⟩ }, blk, setup ++ (.waitBsy :: .waitDrq :: trW))

/-- The fixed mode bits the driver ors into every drive-select byte during
a transfer, bit 6 set (the 0x1 << 6 term in pio.rs). -/
def fixedModeBits : Nat := 0x1 <<< 6

/-- Stated from the spec, for comparison against Driver.read and
Driver.write: the drive-select byte is the drive index shifted left four,
or-ed with the top four bits of the LBA and the fixed mode bits. -/
def driveSelectByte (disk lba : Nat) : Nat :=
  ((disk <<< 4) % 256) ||| ((lba >>> 24) &&& 0xF) ||| fixedModeBits

/-- Stated from the spec: the command-setup event sequence of a transfer,
in order: wait for BSY clear, drive-select byte, sector count, the three
LBA bytes low, mid, high, then the command opcode. -/
def specSetup (disk lba n opcode : Nat) : List Ev :=
  [.waitBsy, .wDsel (driveSelectByte disk lba), .wSecCount n,
   .wLbaLo (lba &&& 0xFF), .wLbaMid ((lba >>> 8) &&& 0xFF),
   .wLbaHigh ((lba >>> 16) &&& 0xFF), .wCmd opcode]

/-- Stated from the spec: the event sequence of one sector of a read
transfer: wait for BSY clear, wait for DRQ set, then 256 data-port reads
in word order, the words of sector sec being reads 256 sec .. 256 sec + 255
of the data stream. -/
def specReadSector (dev : Nat → Nat) (sec : Nat) : List Ev :=
  .waitBsy :: .waitDrq :: (List.range 256).map (fun w => .rData (dev (sec * 256 + w)))

/-- Stated from the spec: the event sequence of one sector of a write
transfer: wait for BSY clear, wait for DRQ set, then 256 data-port writes
taking the words from the data slice at offset sec * 256, in order. -/
def specWriteSector (data : List Nat) (sec : Nat) : List Ev :=
  .waitBsy :: .waitDrq :: (List.range 256).map (fun w => .wData (data.getD (sec * 256 + w) 0))

end pio

namespace keyboard

/-- The crossbeam ArrayQueue of scancodes: a bounded FIFO given by its
fixed capacity and current contents, oldest first. -/
structure BQueue where
  cap : Nat
  items : List Nat
  deriving DecidableEq, Repr

/-- ArrayQueue::push: append at the back if there is room, otherwise
report failure (the Err case) and leave the queue unchanged. -/
def BQueue.push (q : BQueue) (b : Nat) : Option BQueue :=
  if q.items.length < q.cap then some { q with items := q.items ++ [b] } else none

/-- ArrayQueue::pop: remove and return the oldest element, or report the
queue empty. -/
def BQueue.pop (q : BQueue) : Option (Nat × BQueue) :=
  match q.items with
  | [] => none
  | x :: xs => some (x, { q with items := xs })

/-- The global state of the event bridge in keyboard.rs: SCANCODE_QUEUE,
a OnceCell that is none before initialization, and WAKER, the single-slot
AtomicWaker holding at most one registered waker, identified by a number. -/
structure BridgeState where
  scancode_queue : Option BQueue
  waker : Option Nat
  deriving DecidableEq, Repr

/-- Observable side effects of the bridge: the two println warnings of
add_scancode and a wake of the registered waker. -/
inductive KEvent where
  | warnQueueFull
  | warnUninit
  | wake (w : Nat)
  deriving DecidableEq, Repr

/-- The two expect panics in keyboard.rs: initializing the scancode queue
twice in ScancodeStream::new, and polling before initialization. -/
inductive KPanic where
  | doubleInit
  | uninitPoll
  deriving DecidableEq, Repr

/-- add_scancode of keyboard.rs, called from the keyboard interrupt
handler: if the queue is uninitialized, print a warning and drop the byte;
if the push fails because the queue is full, print a warning and drop the
byte; on success, wake the registered waker, if any (AtomicWaker::wake
takes the waker out of the slot). -/
def add_scancode (st : BridgeState) (scancode : Nat) : BridgeState × List KEvent :=
  match st.scancode_queue with
  | none => (st, [.warnUninit])
  | some q =>
    match q.push scancode with
    | none => (st, [.warnQueueFull])
    | some q2 =>
      match st.waker with
      | some w => ({ scancode_queue := some q2, waker := none }, [.wake w])
      | none => ({ st with scancode_queue := some q2 }, [])

/-- A sequence of add_scancode calls, as issued by successive keyboard
interrupts, collecting the emitted events. -/
def pushAll (st : BridgeState) : List Nat → BridgeState × List KEvent
  | [] => (st, [])
  | b :: bs =>
    let p := add_scancode st b
    let p2 := pushAll p.1 bs
    (p2.1, p.2 ++ p2.2)

/-- ScancodeStream::new of keyboard.rs: initialize the scancode queue with
capacity 100; a second initialization fails the expect and panics. -/
def ScancodeStream.new (st : BridgeState) : Except KPanic BridgeState :=
  match st.scancode_queue with
  | some _ => .error .doubleInit
  | none => .ok { st with scancode_queue := some ⟨100, []⟩ }

/-- Result of one poll of the stream. -/
inductive Poll where
  | ready (b : Nat)
  | pending
  deriving DecidableEq, Repr

/-- poll_next of the Stream impl in keyboard.rs, for the caller whose waker
is w.  Panics if the queue is uninitialized.  Fast path: a successful pop
returns Ready without touching the waker slot.  Otherwise the bytes in mid
model the keyboard-interrupt pushes that land in the race window between
the first, empty, dequeue and the waker registration; the waker is then
registered (overwriting the slot) and the queue is popped once more: a byte
found there is returned Ready after clearing the slot with WAKER.take(),
and only an empty re-check returns Pending. -/
def ScancodeStream.poll_next (st : BridgeState) (w : Nat) (mid : List Nat) :
    Except KPanic (Poll × BridgeState × List KEvent) :=
  match st.scancode_queue with
  | none => .error .uninitPoll
  | some q =>
    match q.pop with
    | some (b, q2) => .ok (.ready b, { st with scancode_queue := some q2 }, [])
    | none =>
      let p := pushAll st mid
      let st2 : BridgeState := { p.1 with waker := some w }
      match st2.scancode_queue with
      | none => .error .uninitPoll
      | some q2 =>
        match q2.pop with
        | some (b, q3) =>
          .ok (.ready b, { st2 with scancode_queue := some q3, waker := none }, p.2)
        | none => .ok (.pending, st2, p.2)

/-- The consumer loop: k successive polls with no interrupt activity,
collecting the bytes of the Ready results in order. -/
def pollSeq (w : Nat) : Nat → BridgeState → Except KPanic (List Nat × BridgeState)
  | 0, st => .ok ([], st)
  | k + 1, st =>
    match ScancodeStream.poll_next st w [] with
    | .error e => .error e
    | .ok (.ready b, st2, _) =>
      match pollSeq w k st2 with
      | .error e => .error e
      | .ok (bs, st3) => .ok (b :: bs, st3)
    | .ok (.pending, st2, _) =>
      match pollSeq w k st2 with
      | .error e => .error e
      | .ok (bs, st3) => .ok (bs, st3)

end keyboard

end RustOS

namespace RustOS.pio

/-- Length preservation of the inner read loop. -/
lemma readWords_length (dev : Nat → Nat) :
    ∀ (ws : List Nat) (devIdx : Nat) (buf : List Nat) (base : Nat)
      (buf2 : List Nat) (di2 : Nat) (tr : List Ev),
      readWords dev devIdx buf base ws = .ok (buf2, di2, tr) →
      buf2.length = buf.length := by
  intro ws
  induction ws with
  | nil =>
    intro devIdx buf base buf2 di2 tr h
    simp only [readWords, Except.ok.injEq, Prod.mk.injEq] at h
    rw [← h.1]
  | cons w ws ih =>
    intro devIdx buf base buf2 di2 tr h
    simp only [readWords] at h
    split at h
    case isTrue hlt =>
      rcases heq : readWords dev (devIdx + 1) (buf.set (base + w) (dev devIdx)) base ws with e | ⟨buf', di', tr'⟩
      · rw [heq] at h; exact absurd h (by simp)
      · rw [heq] at h
        simp only [Except.ok.injEq, Prod.mk.injEq] at h
        have := ih _ _ _ _ _ _ heq
        rw [← h.1, this, List.length_set]
    case isFalse hlt => exact absurd h (by simp)

/-- Success of the inner read loop over the word offsets a, a+1, ..., a+k-1
when the data-stream index runs in lockstep with the written position:
the data index advances by k, the trace is the corresponding data-port
reads in order, and the buffer holds the words of the stream on the
written interval and is untouched elsewhere. -/
lemma readWords_ok_spec (dev : Nat → Nat) (base : Nat) :
    ∀ (k a devIdx : Nat) (buf buf2 : List Nat) (di2 : Nat) (tr : List Ev),
      devIdx = base + a →
      readWords dev devIdx buf base (List.range' a k) = .ok (buf2, di2, tr) →
      di2 = base + a + k
      ∧ tr = (List.range' a k).map (fun w => Ev.rData (dev (base + w)))
      ∧ buf2.length = buf.length
      ∧ ∀ i : Nat, buf2[i]? =
          if base + a ≤ i ∧ i < base + a + k then some (dev i) else buf[i]? := by
  intro k
  induction k with
  | zero =>
    intro a devIdx buf buf2 di2 tr hdi h
    simp only [List.range'_zero, readWords, Except.ok.injEq, Prod.mk.injEq] at h
    obtain ⟨h1, h2, h3⟩ := h
    subst h1 h2 h3
    refine ⟨by omega, by simp, rfl, ?_⟩
    intro i
    rw [if_neg (by omega)]
  | succ k ih =>
    intro a devIdx buf buf2 di2 tr hdi h
    rw [List.range'_succ] at h
    simp only [readWords] at h
    split at h
    case isTrue hlt =>
      rcases heq : readWords dev (devIdx + 1) (buf.set (base + a) (dev devIdx)) base (List.range' (a + 1) k) with e | ⟨buf', di', tr'⟩
      · rw [heq] at h; exact absurd h (by simp)
      · rw [heq] at h
        simp only [Except.ok.injEq, Prod.mk.injEq] at h
        obtain ⟨hb, hd, ht⟩ := h
        obtain ⟨ih1, ih2, ih3, ih4⟩ := ih (a + 1) (devIdx + 1) (buf.set (base + a) (dev devIdx)) buf' di' tr' (by omega) heq
        subst hdi
        refine ⟨by omega, ?_, ?_, ?_⟩
        · rw [← ht, List.range'_succ, List.map_cons, ih2]
        · rw [← hb, ih3, List.length_set]
        · intro i
          rw [← hb]
          have hpt := ih4 i
          rw [List.getElem?_set] at hpt
          by_cases h1 : base + a ≤ i ∧ i < base + a + (k + 1)
          · rw [if_pos h1]
            by_cases h2 : i = base + a
            · subst h2
              rw [hpt, if_neg (by omega), if_pos rfl, if_pos hlt]
            · rw [hpt, if_pos (by omega)]
          · rw [if_neg h1, hpt, if_neg (by omega), if_neg (by omega)]
    case isFalse hlt => exact absurd h (by simp)

/-- The inner read loop succeeds whenever the whole written interval is in
bounds. -/
lemma readWords_ok_of_le (dev : Nat → Nat) (base : Nat) :
    ∀ (k a devIdx : Nat) (buf : List Nat),
      base + a + k ≤ buf.length →
      ∃ r, readWords dev devIdx buf base (List.range' a k) = .ok r := by
  intro k
  induction k with
  | zero => intro a devIdx buf hle; exact ⟨(buf, devIdx, []), by simp [List.range'_zero, readWords]⟩
  | succ k ih =>
    intro a devIdx buf hle
    obtain ⟨r, hr⟩ := ih (a + 1) (devIdx + 1) (buf.set (base + a) (dev devIdx)) (by rw [List.length_set]; omega)
    refine ⟨(r.1, r.2.1, .rData (dev devIdx) :: r.2.2), ?_⟩
    rw [List.range'_succ]
    simp only [readWords, if_pos (by omega : base + a < buf.length), hr]

/-- Success of the inner write loop over the word offsets a, ..., a+k-1:
the trace is the data-port writes of the data-slice words at the
corresponding positions, in order. -/
lemma writeWords_ok_spec (data : List Nat) (base : Nat) :
    ∀ (k a : Nat) (tr : List Ev),
      writeWords data base (List.range' a k) = .ok tr →
      tr = (List.range' a k).map (fun w => Ev.wData (data.getD (base + w) 0)) := by
  intro k
  induction k with
  | zero =>
    intro a tr h
    simp only [List.range'_zero, writeWords, Except.ok.injEq] at h
    simp [← h]
  | succ k ih =>
    intro a tr h
    rw [List.range'_succ] at h
    simp only [writeWords] at h
    rcases hv : data[base + a]? with _ | v
    · rw [hv] at h; exact absurd h (by simp)
    · rw [hv] at h
      rcases heq : writeWords data base (List.range' (a + 1) k) with e | tr'
      · rw [heq] at h; exact absurd h (by simp)
      · rw [heq] at h
        simp only [Except.ok.injEq] at h
        rw [← h, List.range'_succ, List.map_cons, ih (a + 1) tr' heq]
        have : data.getD (base + a) 0 = v := by rw [List.getD_eq_getElem?_getD, hv]; rfl
        rw [this]

/-- The inner write loop succeeds whenever the whole read interval of the
data slice is in bounds. -/
lemma writeWords_ok_of_le (data : List Nat) (base : Nat) :
    ∀ (k a : Nat),
      base + a + k ≤ data.length →
      ∃ tr, writeWords data base (List.range' a k) = .ok tr := by
  intro k
  induction k with
  | zero => intro a hle; exact ⟨[], by simp [List.range'_zero, writeWords]⟩
  | succ k ih =>
    intro a hle
    obtain ⟨tr, htr⟩ := ih (a + 1) (by omega)
    have hv : data[base + a]? = some (data.getD (base + a) 0) := by
      rw [List.getElem?_eq_getElem (by omega), List.getD_eq_getElem?_getD, List.getElem?_eq_getElem (by omega)]
      rfl
    refine ⟨.wData (data.getD (base + a) 0) :: tr, ?_⟩
    rw [List.range'_succ]
    simp only [writeWords, hv, htr]

/-- Success of the per-sector read loop over sectors s, ..., s+k-1, entered
with the data-stream index at word s * 256: the trace is the concatenation
of the per-sector event sequences stated from the spec, and the buffer
holds the stream words on the transferred interval and is untouched
elsewhere. -/
lemma readSectorsLoop_ok_spec (dev : Nat → Nat) :
    ∀ (k s devIdx : Nat) (statuses : List Nat) (cur : Nat) (buf buf2 : List Nat)
      (di2 : Nat) (st2 : List Nat) (cur2 : Nat) (tr : List Ev),
      devIdx = s * 256 →
      readSectorsLoop dev devIdx statuses cur buf (List.range' s k) = .ok (buf2, di2, st2, cur2, tr) →
      tr = (List.range' s k).flatMap (specReadSector dev)
      ∧ buf2.length = buf.length
      ∧ ∀ i : Nat, buf2[i]? =
          if s * 256 ≤ i ∧ i < (s + k) * 256 then some (dev i) else buf[i]? := by
  intro k
  induction k with
  | zero =>
    intro s devIdx statuses cur buf buf2 di2 st2 cur2 tr hdi h
    simp only [List.range'_zero, readSectorsLoop, Except.ok.injEq, Prod.mk.injEq] at h
    obtain ⟨h1, h2, h3, h4, h5⟩ := h
    subst h1 h5
    refine ⟨by simp, rfl, ?_⟩
    intro i
    rw [if_neg (by omega)]
  | succ k ih =>
    intro s devIdx statuses cur buf buf2 di2 st2 cur2 tr hdi h
    rw [List.range'_succ] at h
    simp only [readSectorsLoop] at h
    rcases hb : wait_bsy statuses with _ | ⟨s1, st1⟩
    · simp only [hb] at h; exact absurd h (by simp)
    simp only [hb] at h
    rcases hd : wait_drq st1 with _ | ⟨s2, stD⟩
    · simp only [hd] at h; exact absurd h (by simp)
    simp only [hd] at h
    rcases hw : readWords dev devIdx buf (s * 256) (List.range 256) with e | ⟨buf', di', trW⟩
    · simp only [hw] at h; exact absurd h (by simp)
    simp only [hw] at h
    rw [List.range_eq_range'] at hw
    obtain ⟨hw1, hw2, hw3, hw4⟩ :=
      readWords_ok_spec dev (s * 256) 256 0 devIdx buf buf' di' trW (by omega) hw
    rcases hr : readSectorsLoop dev di' stD s2 buf' (List.range' (s + 1) k) with e | ⟨buf3, di3, st3, cur3, tr3⟩
    · simp only [hr] at h; exact absurd h (by simp)
    simp only [hr] at h
    simp only [Except.ok.injEq, Prod.mk.injEq] at h
    obtain ⟨hh1, hh2, hh3, hh4, hh5⟩ := h
    obtain ⟨ih1, ih2, ih3⟩ :=
      ih (s + 1) di' stD s2 buf' buf3 di3 st3 cur3 tr3 (by omega) hr
    refine ⟨?_, ?_, ?_⟩
    · rw [← hh5, List.range'_succ, List.flatMap_cons, ih1, specReadSector, hw2]
      simp [List.range_eq_range']
    · rw [← hh1, ih2, hw3]
    · intro i
      rw [← hh1]
      have hpt := ih3 i
      have hpt2 := hw4 i
      by_cases h1 : s * 256 ≤ i ∧ i < (s + (k + 1)) * 256
      · rw [if_pos h1]
        by_cases h2 : i < (s + 1) * 256
        · rw [hpt, if_neg (by omega), hpt2, if_pos (by omega)]
        · rw [hpt, if_pos (by omega)]
      · rw [if_neg h1, hpt, if_neg (by omega), hpt2, if_neg (by omega)]

/-- Success of the per-sector write loop over sectors s, ..., s+k-1: the
trace is the concatenation of the per-sector event sequences stated from
the spec. -/
lemma writeSectorsLoop_ok_spec (data : List Nat) :
    ∀ (k s : Nat) (statuses : List Nat) (cur : Nat)
      (st2 : List Nat) (cur2 : Nat) (tr : List Ev),
      writeSectorsLoop data statuses cur (List.range' s k) = .ok (st2, cur2, tr) →
      tr = (List.range' s k).flatMap (specWriteSector data) := by
  intro k
  induction k with
  | zero =>
    intro s statuses cur st2 cur2 tr h
    simp only [List.range'_zero, writeSectorsLoop, Except.ok.injEq, Prod.mk.injEq] at h
    simp [← h.2.2]
  | succ k ih =>
    intro s statuses cur st2 cur2 tr h
    rw [List.range'_succ] at h
    simp only [writeSectorsLoop] at h
    rcases hb : wait_bsy statuses with _ | ⟨s1, st1⟩
    · simp only [hb] at h; exact absurd h (by simp)
    simp only [hb] at h
    rcases hd : wait_drq st1 with _ | ⟨s2, stD⟩
    · simp only [hd] at h; exact absurd h (by simp)
    simp only [hd] at h
    rcases hw : writeWords data (s * 256) (List.range 256) with e | trW
    · simp only [hw] at h; exact absurd h (by simp)
    simp only [hw] at h
    rw [List.range_eq_range'] at hw
    have hw2 := writeWords_ok_spec data (s * 256) 256 0 trW hw
    rcases hr : writeSectorsLoop data stD s2 (List.range' (s + 1) k) with e | ⟨st3, cur3, tr3⟩
    · simp only [hr] at h; exact absurd h (by simp)
    simp only [hr] at h
    simp only [Except.ok.injEq, Prod.mk.injEq] at h
    obtain ⟨hh1, hh2, hh3⟩ := h
    rw [← hh3, List.range'_succ, List.flatMap_cons, ih (s + 1) stD s2 st3 cur3 tr3 hr,
      specWriteSector, hw2]
    simp [List.range_eq_range']

/-- The per-sector read loop never raises an index panic when the buffer
covers all transferred sectors; it either completes or hangs waiting on
the device. -/
lemma readSectorsLoop_no_panic (dev : Nat → Nat) :
    ∀ (k s devIdx : Nat) (statuses : List Nat) (cur : Nat) (buf : List Nat),
      (s + k) * 256 ≤ buf.length →
      readSectorsLoop dev devIdx statuses cur buf (List.range' s k) ≠ .error .indexPanic := by
  intro k
  induction k with
  | zero =>
    intro s devIdx statuses cur buf hle
    simp [List.range'_zero, readSectorsLoop]
  | succ k ih =>
    intro s devIdx statuses cur buf hle
    rw [List.range'_succ]
    simp only [readSectorsLoop]
    rcases hb : wait_bsy statuses with _ | ⟨s1, st1⟩
    · simp
    rcases hd : wait_drq st1 with _ | ⟨s2, stD⟩
    · simp [hd]
    obtain ⟨⟨buf', di', trW⟩, hr⟩ := readWords_ok_of_le dev (s * 256) 256 0 devIdx buf (by omega)
    rw [← List.range_eq_range'] at hr
    have hlen : buf'.length = buf.length := readWords_length dev _ _ _ _ _ _ _ hr
    simp only [hd, hr]
    rcases hloop : readSectorsLoop dev di' stD s2 buf' (List.range' (s + 1) k) with e | q
    · have := ih (s + 1) di' stD s2 buf' (by omega)
      rw [hloop] at this
      cases e
      · simp
      · exact absurd rfl this
    · simp [hloop]

/-- The per-sector write loop never raises an index panic when the data
slice covers all transferred sectors. -/
lemma writeSectorsLoop_no_panic (data : List Nat) :
    ∀ (k s : Nat) (statuses : List Nat) (cur : Nat),
      (s + k) * 256 ≤ data.length →
      writeSectorsLoop data statuses cur (List.range' s k) ≠ .error .indexPanic := by
  intro k
  induction k with
  | zero =>
    intro s statuses cur hle
    simp [List.range'_zero, writeSectorsLoop]
  | succ k ih =>
    intro s statuses cur hle
    rw [List.range'_succ]
    simp only [writeSectorsLoop]
    rcases hb : wait_bsy statuses with _ | ⟨s1, st1⟩
    · simp
    rcases hd : wait_drq st1 with _ | ⟨s2, stD⟩
    · simp [hd]
    obtain ⟨trW, hw⟩ := writeWords_ok_of_le data (s * 256) 256 0 (by omega)
    rw [← List.range_eq_range'] at hw
    simp only [hd, hw]
    rcases hloop : writeSectorsLoop data stD s2 (List.range' (s + 1) k) with e | q
    · have := ih (s + 1) stD s2 (by omega)
      rw [hloop] at this
      cases e
      · simp
      · exact absurd rfl this
    · simp [hloop]

/-- The low-byte mask is reduction mod 256. -/
lemma and_255_eq_mod (x : Nat) : x &&& 255 = x % 256 := by
  have h := Nat.and_pow_two_sub_one_eq_mod x 8
  norm_num at h
  exact h

/-- The nibble mask is reduction mod 16. -/
lemma and_15_eq_mod (x : Nat) : x &&& 15 = x % 16 := by
  have h := Nat.and_pow_two_sub_one_eq_mod x 4
  norm_num at h
  exact h

/-- The top drive-select nibble of the LBA depends only on its low 28 bits. -/
lemma lba_top_mod (lba : Nat) : ((lba % 2 ^ 28) >>> 24) &&& 0xF = (lba >>> 24) &&& 0xF := by
  rw [and_15_eq_mod, and_15_eq_mod, Nat.shiftRight_eq_div_pow, Nat.shiftRight_eq_div_pow]
  omega

/-- The low LBA byte depends only on the low 28 bits. -/
lemma lba_lo_mod (lba : Nat) : (lba % 2 ^ 28) &&& 0xFF = lba &&& 0xFF := by
  rw [and_255_eq_mod, and_255_eq_mod]
  omega

/-- The mid LBA byte depends only on the low 28 bits. -/
lemma lba_mid_mod (lba : Nat) : ((lba % 2 ^ 28) >>> 8) &&& 0xFF = (lba >>> 8) &&& 0xFF := by
  rw [and_255_eq_mod, and_255_eq_mod, Nat.shiftRight_eq_div_pow, Nat.shiftRight_eq_div_pow]
  omega

/-- The high LBA byte depends only on the low 28 bits. -/
lemma lba_high_mod (lba : Nat) : ((lba % 2 ^ 28) >>> 16) &&& 0xFF = (lba >>> 16) &&& 0xFF := by
  rw [and_255_eq_mod, and_255_eq_mod, Nat.shiftRight_eq_div_pow, Nat.shiftRight_eq_div_pow]
  omega

/-- C7: the behaviour of a read or a write transfer depends only on the low
28 bits of the LBA: a transfer at lba and one at lba mod 2^28, with the
same driver, device responses, buffer, data and count, write identical
values to every device register and transfer identical data (the entire
outcome, register-event trace included, is equal). -/
theorem lba_truncation (d : Driver) (statuses sw : List Nat) (dev : Nat → Nat)
    (buf data : List Nat) (lba n : Nat) :
    Driver.read d statuses dev buf (lba % 2 ^ 28) n = Driver.read d statuses dev buf lba n
    ∧ Driver.write d sw data (lba % 2 ^ 28) n = Driver.write d sw data lba n := by
  constructor
  · simp only [Driver.read, lba_top_mod, lba_lo_mod, lba_mid_mod, lba_high_mod]
  · simp only [Driver.write, lba_top_mod, lba_lo_mod, lba_mid_mod, lba_high_mod]

/-- C9: a read or write transfer of n sectors against a buffer or data
slice of length at least 256 n never panics from indexing (every buffer
access is in bounds; the only abnormal outcome left is a device hang),
while a read of one sector into an empty buffer indexes past the end and
panics. -/
theorem transfer_in_bounds (d : Driver) (statuses sw : List Nat) (dev : Nat → Nat)
    (buf data : List Nat) (lba n : Nat)
    (hbuf : n * 256 ≤ buf.length) (hdata : n * 256 ≤ data.length) :
    Driver.read d statuses dev buf lba n ≠ .error .indexPanic
    ∧ Driver.write d sw data lba n ≠ .error .indexPanic
    ∧ Driver.read d [0, 0, 8] dev [] lba 1 = .error .indexPanic := by
  refine ⟨?_, ?_, ?_⟩
  · simp only [Driver.read]
    rcases hwb : wait_bsy statuses with _ | ⟨s0, st0⟩
    · simp
    rcases hl : readSectorsLoop dev 0 st0 s0 buf (List.range n) with e | ⟨buf2, di2, st2, cur2, tr2⟩
    · simp only [hl]
      rw [List.range_eq_range'] at hl
      have hnp := readSectorsLoop_no_panic dev n 0 0 st0 s0 buf (by omega)
      rw [hl] at hnp
      cases e
      · simp
      · exact absurd rfl hnp
    · simp only [hl]
      simp
  · simp only [Driver.write]
    rcases hwb : wait_bsy sw with _ | ⟨s0, st0⟩
    · simp
    rcases hl : writeSectorsLoop data st0 s0 (List.range n) with e | ⟨st2, cur2, tr2⟩
    · simp only [hl]
      rw [List.range_eq_range'] at hl
      have hnp := writeSectorsLoop_no_panic data n 0 st0 s0 (by omega)
      rw [hl] at hnp
      cases e
      · simp
      · exact absurd rfl hnp
    · simp only [hl]
      simp
  · rfl

/-- Witness for C9: at sector count 0 and empty buffers the length bound
holds and the transfer cannot index-panic, while the concrete one-sector
read into an empty buffer does panic. -/
theorem transfer_in_bounds_witness :
    0 * 256 ≤ ([] : List Nat).length
    ∧ (Driver.read ⟨⟨0⟩, 0, .Primary⟩ [] (fun i => i) [] 0 0 ≠ .error .indexPanic
       ∧ Driver.write ⟨⟨0⟩, 0, .Primary⟩ [] [] 0 0 ≠ .error .indexPanic
       ∧ Driver.read ⟨⟨0⟩, 0, .Primary⟩ [0, 0, 8] (fun i => i) [] 0 1 = .error .indexPanic) :=
  ⟨by simp, transfer_in_bounds ⟨⟨0⟩, 0, .Primary⟩ [] [] (fun i => i) [] [] 0 0 (by simp) (by simp)⟩

/-- A single bit mask is positive on exactly the numbers whose bit is set. -/
lemma and_one_shiftLeft_pos (s k : Nat) : 0 < s &&& (1 <<< k) ↔ s.testBit k := by
  rw [Nat.one_shiftLeft, Nat.and_two_pow]
  have h2 : 0 < 2 ^ k := Nat.pow_pos (by norm_num)
  cases h : s.testBit k <;> simp [h2]

/-- C3: busy tests bit 7 (mask 0x80), drive_request tests bit 3 (mask 0x08),
and every other status-register accessor and every error-register accessor
tests exactly its documented bit position (ERR=0, DRQ=3, SRV=4, DF=5, RDY=6,
BSY=7; AMNF=0 through BBK=7). -/
theorem status_error_bit_positions (s : Nat) :
    (status.Status.busy ⟨s⟩ = true ↔ s &&& 0x80 ≠ 0)
    ∧ (status.Status.drive_request ⟨s⟩ = true ↔ s &&& 0x08 ≠ 0)
    ∧ (status.Status.error ⟨s⟩ = true ↔ s.testBit 0)
    ∧ (status.Status.drive_request ⟨s⟩ = true ↔ s.testBit 3)
    ∧ (status.Status.service_request ⟨s⟩ = true ↔ s.testBit 4)
    ∧ (status.Status.drive_fault ⟨s⟩ = true ↔ s.testBit 5)
    ∧ (status.Status.ready ⟨s⟩ = true ↔ s.testBit 6)
    ∧ (status.Status.busy ⟨s⟩ = true ↔ s.testBit 7)
    ∧ (diskError.Error.address_mark_not_found ⟨s⟩ = true ↔ s.testBit 0)
    ∧ (diskError.Error.track_zero_not_found ⟨s⟩ = true ↔ s.testBit 1)
    ∧ (diskError.Error.aborted_command ⟨s⟩ = true ↔ s.testBit 2)
    ∧ (diskError.Error.media_change_request ⟨s⟩ = true ↔ s.testBit 3)
    ∧ (diskError.Error.id_not_found ⟨s⟩ = true ↔ s.testBit 4)
    ∧ (diskError.Error.media_changed ⟨s⟩ = true ↔ s.testBit 5)
    ∧ (diskError.Error.uncorrectable_data ⟨s⟩ = true ↔ s.testBit 6)
    ∧ (diskError.Error.bad_block ⟨s⟩ = true ↔ s.testBit 7) := by
  refine ⟨?_, ?_, ?_, ?_, ?_, ?_, ?_, ?_, ?_, ?_, ?_, ?_, ?_, ?_, ?_, ?_⟩ <;>
    simp only [status.Status.busy, status.Status.drive_request, status.Status.error,
      status.Status.service_request, status.Status.drive_fault, status.Status.ready,
      diskError.Error.address_mark_not_found, diskError.Error.track_zero_not_found,
      diskError.Error.aborted_command, diskError.Error.media_change_request,
      diskError.Error.id_not_found, diskError.Error.media_changed,
      diskError.Error.uncorrectable_data, diskError.Error.bad_block,
      status.Bitflags.toNat, diskError.Bitflags.toNat, decide_eq_true_iff,
      and_one_shiftLeft_pos]
  · rw [← and_one_shiftLeft_pos s 7]
    show 0 < s &&& 128 ↔ s &&& 128 ≠ 0
    omega
  · rw [← and_one_shiftLeft_pos s 3]
    show 0 < s &&& 8 ↔ s &&& 8 ≠ 0
    omega

/-- C1: a read or write transfer first waits for BSY to clear, then writes
the drive-select byte (drive index shifted left 4, or-ed with the top 4 LBA
bits and the fixed mode bits), the sector count, the three low LBA bytes
and the command opcode (0x20 read, 0x30 write) in this order, and then for
each of the n sectors waits for BSY clear and DRQ set and transfers exactly
256 sixteen-bit words in order through the data port at buffer offset
sector * 256; in particular the drive-select byte for LBA 0x01020304 with
drive index 1 is (1 shl 4) or (0x01020304 shr 24 and 0xF) or the fixed mode
bits. -/
theorem transfer_protocol (d : Driver) (statuses sw : List Nat) (dev : Nat → Nat)
    (buf data : List Nat) (lba n : Nat) (d1 d2 : Driver) (buf' : List Nat) (tr trw : List Ev)
    (hr : Driver.read d statuses dev buf lba n = .ok (d1, buf', tr))
    (hw : Driver.write d sw data lba n = .ok (d2, trw)) :
    tr = specSetup d.disk lba n READ_COMMAND ++ (List.range n).flatMap (specReadSector dev)
    ∧ trw = specSetup d.disk lba n WRITE_COMMAND ++ (List.range n).flatMap (specWriteSector data)
    ∧ buf'.length = buf.length
    ∧ (∀ i : Nat, i < n * 256 → buf'[i]? = some (dev i))
    ∧ (∀ i : Nat, n * 256 ≤ i → buf'[i]? = buf[i]?)
    ∧ READ_COMMAND = 0x20 ∧ WRITE_COMMAND = 0x30
    ∧ driveSelectByte 1 0x01020304 = ((1 <<< 4) ||| ((0x01020304 >>> 24) &&& 0xF) ||| fixedModeBits) := by
  simp only [Driver.read] at hr
  rcases hwb : wait_bsy statuses with _ | ⟨s0, st0⟩
  · simp only [hwb] at hr; exact absurd hr (by simp)
  simp only [hwb] at hr
  rcases hl : readSectorsLoop dev 0 st0 s0 buf (List.range n) with e | ⟨buf2, di2, st2, cur2, tr2⟩
  · simp only [hl] at hr; exact absurd hr (by simp)
  simp only [hl] at hr
  simp only [Except.ok.injEq, Prod.mk.injEq] at hr
  obtain ⟨hrd, hrb, hrt⟩ := hr
  rw [List.range_eq_range'] at hl
  obtain ⟨t1, t2, t3⟩ :=
    readSectorsLoop_ok_spec dev n 0 0 st0 s0 buf buf2 di2 st2 cur2 tr2 (by omega) hl
  simp only [Driver.write] at hw
  rcases hwb2 : wait_bsy sw with _ | ⟨s0w, st0w⟩
  · simp only [hwb2] at hw; exact absurd hw (by simp)
  simp only [hwb2] at hw
  rcases hlw : writeSectorsLoop data st0w s0w (List.range n) with e | ⟨stw2, curw2, trw2⟩
  · simp only [hlw] at hw; exact absurd hw (by simp)
  simp only [hlw] at hw
  simp only [Except.ok.injEq, Prod.mk.injEq] at hw
  obtain ⟨hwd, hwt⟩ := hw
  rw [List.range_eq_range'] at hlw
  have tw1 := writeSectorsLoop_ok_spec data n 0 st0w s0w stw2 curw2 trw2 hlw
  refine ⟨?_, ?_, ?_, ?_, ?_, rfl, rfl, rfl⟩
  · rw [← hrt, t1, List.range_eq_range']
    rfl
  · rw [← hwt, tw1, List.range_eq_range']
    rfl
  · rw [← hrb]; exact t2
  · intro i hi
    rw [← hrb, t3 i, if_pos (by omega)]
  · intro i hi
    rw [← hrb, t3 i, if_neg (by omega)]

/-- Witness for C1: a concrete one-sector read and one-sector write at LBA
0x01020304 with drive index 1, the device reporting BSY clear and then DRQ
set, both of which complete and follow the setup-then-transfer trace. -/
theorem transfer_protocol_witness :
    Driver.read ⟨⟨0⟩, 1, .Primary⟩ [0, 0, 8] (fun i => i) (List.replicate 256 0) 0x01020304 1 =
      .ok (⟨⟨8⟩, 1, .Primary⟩, List.range 256,
           specSetup 1 0x01020304 1 READ_COMMAND ++ (List.range 1).flatMap (specReadSector (fun i => i)))
    ∧ Driver.write ⟨⟨0⟩, 1, .Primary⟩ [0, 0, 8] (List.replicate 256 5) 0x01020304 1 =
      .ok (⟨⟨8⟩, 1, .Primary⟩,
           specSetup 1 0x01020304 1 WRITE_COMMAND ++ (List.range 1).flatMap (specWriteSector (List.replicate 256 5)))
    ∧ driveSelectByte 1 0x01020304 = ((1 <<< 4) ||| ((0x01020304 >>> 24) &&& 0xF) ||| fixedModeBits) := by
  have h1 : Driver.read ⟨⟨0⟩, 1, .Primary⟩ [0, 0, 8] (fun i => i) (List.replicate 256 0) 0x01020304 1 =
      .ok (⟨⟨8⟩, 1, .Primary⟩, List.range 256,
           specSetup 1 0x01020304 1 READ_COMMAND ++ (List.range 1).flatMap (specReadSector (fun i => i))) := by
    rfl
  have h2 : Driver.write ⟨⟨0⟩, 1, .Primary⟩ [0, 0, 8] (List.replicate 256 5) 0x01020304 1 =
      .ok (⟨⟨8⟩, 1, .Primary⟩,
           specSetup 1 0x01020304 1 WRITE_COMMAND ++ (List.range 1).flatMap (specWriteSector (List.replicate 256 5))) := by
    rfl
  exact ⟨h1, h2, (transfer_protocol _ _ _ _ _ _ _ _ _ _ _ _ _ h1 h2).2.2.2.2.2.2.2⟩

/-- C6: a read or write transfer with sector count 0 performs the
command-setup register writes (drive select, sector count 0, LBA bytes,
opcode) but transfers no data words and leaves the caller's buffer
unchanged: the per-sector loop runs zero times, so the trace is exactly
the setup sequence, which contains no DRQ wait and no data-port event. -/
theorem count_zero_noop (d : Driver) (statuses : List Nat) (dev : Nat → Nat)
    (buf data : List Nat) (lba s0 : Nat) (rest : List Nat)
    (h : wait_bsy statuses = some (s0, rest)) :
    Driver.read d statuses dev buf lba 0 =
      .ok ({ d with status := ⟨s0⟩ }, buf, specSetup d.disk lba 0 READ_COMMAND)
    ∧ Driver.write d statuses data lba 0 =
      .ok ({ d with status := ⟨s0⟩ }, specSetup d.disk lba 0 WRITE_COMMAND)
    ∧ (∀ e ∈ specSetup d.disk lba 0 READ_COMMAND ++ specSetup d.disk lba 0 WRITE_COMMAND,
        e ≠ .waitDrq ∧ ∀ v : Nat, e ≠ .rData v ∧ e ≠ .wData v) := by
  refine ⟨?_, ?_, ?_⟩
  · simp only [Driver.read, h]
    simp [readSectorsLoop, specSetup, driveSelectByte, fixedModeBits]
  · simp only [Driver.write, h]
    simp [writeSectorsLoop, specSetup, driveSelectByte, fixedModeBits]
  · intro e he
    simp only [specSetup, List.mem_append, List.mem_cons, List.not_mem_nil, or_false] at he
    rcases he with (rfl|rfl|rfl|rfl|rfl|rfl|rfl) | (rfl|rfl|rfl|rfl|rfl|rfl|rfl) <;>
      exact ⟨by simp, fun v => ⟨by simp, by simp⟩⟩

/-- Witness for C6: a zero-sector read with the device immediately
reporting BSY clear performs only the setup writes and returns the buffer
unchanged. -/
theorem count_zero_noop_witness :
    wait_bsy [0] = some (0, [])
    ∧ Driver.read ⟨⟨7⟩, 0, .Primary⟩ [0] (fun i => i) [3] 9 0 =
        .ok (⟨⟨0⟩, 0, .Primary⟩, [3], specSetup 0 9 0 READ_COMMAND) := by
  have h : wait_bsy [0] = some (0, []) := by rfl
  exact ⟨h, (count_zero_noop ⟨⟨7⟩, 0, .Primary⟩ [0] (fun i => i) [3] [] 9 0 [] h).1⟩

/-- C2: if the status byte read immediately after the 0xEC identify opcode
is all-zero, identify returns a block of 256 zero words with a trace of
exactly the six setup register writes, so no BSY or DRQ polling and no
data-port read occurs after that status read; otherwise it waits for BSY
clear and DRQ set and reads the 256-word block from the data port. -/
theorem identify_status_zero (d d' : Driver) (s : Nat) (rest : List Nat) (dev : Nat → Nat)
    (blk : List Nat) (tr : List Ev) :
    (s = 0 → Driver.identify d (s :: rest) dev =
        .ok ({ d with status := ⟨0⟩ }, List.replicate 256 0,
             [.wDsel (0xA0 ||| ((d.disk <<< 4) % 256)), .wSecCount 0,
              .wLbaLo 0, .wLbaMid 0, .wLbaHigh 0, .wCmd 0xEC]))
    ∧ (∀ e ∈ [Ev.wDsel (0xA0 ||| ((d.disk <<< 4) % 256)), Ev.wSecCount 0,
              Ev.wLbaLo 0, Ev.wLbaMid 0, Ev.wLbaHigh 0, Ev.wCmd 0xEC],
        e ≠ .waitBsy ∧ e ≠ .waitDrq ∧ ∀ v : Nat, e ≠ .rData v)
    ∧ (s ≠ 0 → Driver.identify d (s :: rest) dev = .ok (d', blk, tr) →
        blk = (List.range 256).map dev
        ∧ tr = [Ev.wDsel (0xA0 ||| ((d.disk <<< 4) % 256)), Ev.wSecCount 0,
                Ev.wLbaLo 0, Ev.wLbaMid 0, Ev.wLbaHigh 0, Ev.wCmd 0xEC]
               ++ Ev.waitBsy :: Ev.waitDrq :: (List.range 256).map (fun i => Ev.rData (dev i))) := by
  refine ⟨?_, ?_, ?_⟩
  · intro hs
    subst hs
    simp [Driver.identify]
  · intro e he
    simp only [List.mem_cons, List.not_mem_nil, or_false] at he
    rcases he with rfl|rfl|rfl|rfl|rfl|rfl <;> exact ⟨by simp, by simp, fun v => by simp⟩
  · intro hs h
    simp only [Driver.identify, if_neg hs] at h
    rcases hwb : wait_bsy rest with _ | ⟨s1, st1⟩
    · simp only [hwb] at h; exact absurd h (by simp)
    simp only [hwb] at h
    rcases hwd : wait_drq st1 with _ | ⟨s2, st2⟩
    · simp only [hwd] at h; exact absurd h (by simp)
    simp only [hwd] at h
    rcases hrw : readWords dev 0 (List.replicate 256 0) 0 (List.range 256) with e | ⟨blk2, di2, trW⟩
    · simp only [hrw] at h; exact absurd h (by simp)
    simp only [hrw] at h
    simp only [Except.ok.injEq, Prod.mk.injEq] at h
    obtain ⟨hd2, hblk, htr⟩ := h
    rw [List.range_eq_range'] at hrw
    obtain ⟨w1, w2, w3, w4⟩ :=
      readWords_ok_spec dev 0 256 0 0 (List.replicate 256 0) blk2 di2 trW (by omega) hrw
    constructor
    · rw [← hblk]
      apply List.ext_getElem?
      intro i
      rw [w4 i]
      by_cases hi : i < 256
      · rw [if_pos (by omega), List.getElem?_map, List.getElem?_range hi]
        rfl
      · rw [if_neg (by omega), List.getElem?_map,
          List.getElem?_eq_none (by simp; omega), List.getElem?_eq_none (by simp; omega)]
        rfl
    · rw [← htr, w2, ← List.range_eq_range']
      simp

/-- Witness for C2: a device answering status 5, then BSY clear, then DRQ
set, yields the 256-word block read; a device answering status 0 yields the
zero block with only the setup writes. -/
theorem identify_status_zero_witness :
    (5 : Nat) ≠ 0
    ∧ Driver.identify ⟨⟨0⟩, 1, .Primary⟩ [5, 0, 8] (fun i => i) =
        .ok (⟨⟨8⟩, 1, .Primary⟩, (List.range 256).map (fun i => i),
             [Ev.wDsel (0xA0 ||| ((1 <<< 4) % 256)), Ev.wSecCount 0, Ev.wLbaLo 0,
              Ev.wLbaMid 0, Ev.wLbaHigh 0, Ev.wCmd 0xEC]
             ++ Ev.waitBsy :: Ev.waitDrq :: (List.range 256).map (fun i => Ev.rData i))
    ∧ Driver.identify ⟨⟨0⟩, 1, .Primary⟩ [0] (fun i => i) =
        .ok (⟨⟨0⟩, 1, .Primary⟩, List.replicate 256 0,
             [Ev.wDsel (0xA0 ||| ((1 <<< 4) % 256)), Ev.wSecCount 0, Ev.wLbaLo 0,
              Ev.wLbaMid 0, Ev.wLbaHigh 0, Ev.wCmd 0xEC]) := by
  have h5 : (5 : Nat) ≠ 0 := by decide
  have h : Driver.identify ⟨⟨0⟩, 1, .Primary⟩ [5, 0, 8] (fun i => i) =
      .ok (⟨⟨8⟩, 1, .Primary⟩, (List.range 256).map (fun i => i),
           [Ev.wDsel (0xA0 ||| ((1 <<< 4) % 256)), Ev.wSecCount 0, Ev.wLbaLo 0,
            Ev.wLbaMid 0, Ev.wLbaHigh 0, Ev.wCmd 0xEC]
           ++ Ev.waitBsy :: Ev.waitDrq :: (List.range 256).map (fun i => Ev.rData i)) := by
    rfl
  exact ⟨h5, h,
    (identify_status_zero ⟨⟨0⟩, 1, .Primary⟩ ⟨⟨0⟩, 1, .Primary⟩ 0 [] (fun i => i)
      (List.replicate 256 0) []).1 rfl⟩

end RustOS.pio

namespace RustOS.keyboard

/-- A push into a queue with room, with no registered waker, appends the
byte and emits no event. -/
lemma add_scancode_ok (cap : Nat) (l : List Nat) (b : Nat) (h : l.length < cap) :
    add_scancode ⟨some ⟨cap, l⟩, none⟩ b = (⟨some ⟨cap, l ++ [b]⟩, none⟩, []) := by
  simp [add_scancode, BQueue.push, h]

/-- A push into a full queue drops the byte, warns, and leaves the whole
bridge state unchanged. -/
lemma add_scancode_full (cap : Nat) (l : List Nat) (wk : Option Nat) (b : Nat)
    (h : ¬ l.length < cap) :
    add_scancode ⟨some ⟨cap, l⟩, wk⟩ b = (⟨some ⟨cap, l⟩, wk⟩, [.warnQueueFull]) := by
  simp [add_scancode, BQueue.push, h]

/-- A batch of pushes that fits entirely in the queue, with no registered
waker: every push succeeds silently and the bytes are appended in order. -/
lemma pushAll_fits :
    ∀ (bs : List Nat) (cap : Nat) (l : List Nat),
      l.length + bs.length ≤ cap →
      pushAll ⟨some ⟨cap, l⟩, none⟩ bs = (⟨some ⟨cap, l ++ bs⟩, none⟩, []) := by
  intro bs
  induction bs with
  | nil => intro cap l h; simp [pushAll]
  | cons b bs ih =>
    intro cap l h
    simp only [pushAll, add_scancode_ok cap l b (by simp at h; omega)]
    rw [ih cap (l ++ [b]) (by simp at h ⊢; omega)]
    simp

/-- Interrupt pushes compose: pushing a concatenation is pushing the two
batches in sequence, events concatenated. -/
lemma pushAll_append :
    ∀ (l1 l2 : List Nat) (st : BridgeState),
      pushAll st (l1 ++ l2) =
        ((pushAll (pushAll st l1).1 l2).1,
         (pushAll st l1).2 ++ (pushAll (pushAll st l1).1 l2).2) := by
  intro l1
  induction l1 with
  | nil => intro l2 st; simp [pushAll]
  | cons b l1 ih =>
    intro l2 st
    simp only [List.cons_append, pushAll, List.append_eq]
    rw [ih]
    simp

/-- Polling k times a queue holding at least k bytes, with no interrupt
activity, returns the first k bytes in order and leaves the rest queued;
the fast path never touches the waker slot. -/
lemma pollSeq_ready :
    ∀ (k : Nat) (l : List Nat) (cap : Nat) (wk : Option Nat) (w : Nat),
      k ≤ l.length →
      pollSeq w k ⟨some ⟨cap, l⟩, wk⟩ = .ok (l.take k, ⟨some ⟨cap, l.drop k⟩, wk⟩) := by
  intro k
  induction k with
  | zero => intro l cap wk w h; simp [pollSeq]
  | succ k ih =>
    intro l cap wk w h
    cases l with
    | nil => simp at h
    | cons x xs =>
      simp only [pollSeq, ScancodeStream.poll_next, BQueue.pop]
      rw [ih xs cap wk w (by simpa using h)]
      simp

/-- C4: pushing 101 bytes into the freshly initialized capacity-100 bridge
leaves exactly the first 100 queued, emits exactly one queue-full warning
(from the 101st push, the first 100 pushes warning nothing), changes
nothing else, and 100 subsequent polls dequeue exactly the first 100 bytes
in push order. -/
theorem scancode_overflow (bs : List Nat) (w : Nat) (h : bs.length = 101) :
    (pushAll ⟨some ⟨100, []⟩, none⟩ bs).1 = ⟨some ⟨100, bs.take 100⟩, none⟩
    ∧ (pushAll ⟨some ⟨100, []⟩, none⟩ bs).2 = [.warnQueueFull]
    ∧ (pushAll ⟨some ⟨100, []⟩, none⟩ (bs.take 100)).2 = []
    ∧ pollSeq w 100 (pushAll ⟨some ⟨100, []⟩, none⟩ bs).1 =
        .ok (bs.take 100, ⟨some ⟨100, []⟩, none⟩) := by
  have hlt : (bs.take 100).length = 100 := by rw [List.length_take]; omega
  obtain ⟨b, hb⟩ : ∃ b, bs.drop 100 = [b] := by
    have hdrop : (bs.drop 100).length = 1 := by rw [List.length_drop]; omega
    cases hd : bs.drop 100 with
    | nil => rw [hd] at hdrop; simp at hdrop
    | cons x xs =>
      rw [hd] at hdrop
      simp only [List.length_cons] at hdrop
      have hnil : xs = [] := List.eq_nil_of_length_eq_zero (by omega)
      exact ⟨x, by rw [hnil]⟩
  have hfits := pushAll_fits (bs.take 100) 100 [] (by simp [hlt])
  rw [List.nil_append] at hfits
  have hmain : pushAll ⟨some ⟨100, []⟩, none⟩ bs =
      (⟨some ⟨100, bs.take 100⟩, none⟩, [.warnQueueFull]) := by
    conv_lhs => rw [← List.take_append_drop 100 bs]
    rw [pushAll_append, hfits, hb]
    simp only [pushAll, add_scancode_full 100 (bs.take 100) none b (by omega)]
    simp
  refine ⟨by rw [hmain], by rw [hmain], by rw [hfits], ?_⟩
  rw [hmain]
  rw [pollSeq_ready 100 (bs.take 100) 100 none w (by omega)]
  rw [List.take_of_length_le (by omega), List.drop_eq_nil_of_le (by omega)]

/-- Witness for C4: the concrete 101-byte batch 0, 1, ..., 100. -/
theorem scancode_overflow_witness :
    (List.range 101).length = 101
    ∧ pollSeq 0 100 (pushAll ⟨some ⟨100, []⟩, none⟩ (List.range 101)).1 =
        .ok ((List.range 101).take 100, ⟨some ⟨100, []⟩, none⟩) := by
  have h : (List.range 101).length = 101 := by simp
  exact ⟨h, (scancode_overflow (List.range 101) 0 h).2.2.2⟩

/-- C5: a poll of the initialized stream that finds a byte on the first
dequeue returns Ready with it and never touches the waker slot; a poll
that finds the queue empty registers the waker and re-checks once, so if
interrupt pushes landed in the race window it clears the slot and returns
Ready with exactly the first such byte, and only if the re-check also
finds the queue empty does it return Pending with the waker registered. -/
theorem poll_next_race (cap w b m : Nat) (w0 : Option Nat) (rest mid ms : List Nat) :
    ScancodeStream.poll_next ⟨some ⟨cap, b :: rest⟩, w0⟩ w mid =
        .ok (.ready b, ⟨some ⟨cap, rest⟩, w0⟩, [])
    ∧ (ms.length ≤ 99 →
        ScancodeStream.poll_next ⟨some ⟨100, []⟩, none⟩ w (m :: ms) =
          .ok (.ready m, ⟨some ⟨100, ms⟩, none⟩, []))
    ∧ ScancodeStream.poll_next ⟨some ⟨cap, []⟩, w0⟩ w [] =
        .ok (.pending, ⟨some ⟨cap, []⟩, some w⟩, []) := by
  refine ⟨rfl, ?_, rfl⟩
  intro hlen
  simp only [ScancodeStream.poll_next, BQueue.pop]
  rw [pushAll_fits (m :: ms) 100 [] (by simp; omega)]
  simp

/-- Witness for C5: polling the empty bridge while bytes 3 then 4 arrive
in the race window returns Ready 3, leaves 4 queued and the slot clear. -/
theorem poll_next_race_witness :
    ([4] : List Nat).length ≤ 99
    ∧ ScancodeStream.poll_next ⟨some ⟨100, []⟩, none⟩ 7 [3, 4] =
        .ok (.ready 3, ⟨some ⟨100, [4]⟩, none⟩, []) := by
  have h : ([4] : List Nat).length ≤ 99 := by decide
  exact ⟨h, (poll_next_race 100 7 0 3 none [] [] [4]).2.1 h⟩

/-- C8: the first construction of the consuming stream initializes the
capacity-100 queue exactly once; constructing it again after a successful
construction panics, and polling with the queue never initialized panics
as well. -/
theorem stream_double_init (st st' : BridgeState) (w0 : Option Nat) (w : Nat) (mid : List Nat)
    (h : ScancodeStream.new st = .ok st') :
    ScancodeStream.new ⟨none, w0⟩ = .ok ⟨some ⟨100, []⟩, w0⟩
    ∧ ScancodeStream.new st' = .error .doubleInit
    ∧ ScancodeStream.poll_next ⟨none, w0⟩ w mid = .error .uninitPoll := by
  refine ⟨rfl, ?_, rfl⟩
  rcases st with ⟨q, wk⟩
  cases q with
  | some q => simp [ScancodeStream.new] at h
  | none =>
    simp only [ScancodeStream.new, Except.ok.injEq] at h
    rw [← h]
    rfl

/-- Witness for C8: a first construction from the uninitialized state
succeeds and a second one from the resulting state panics. -/
theorem stream_double_init_witness :
    ScancodeStream.new ⟨none, none⟩ = .ok ⟨some ⟨100, []⟩, none⟩
    ∧ ScancodeStream.new ⟨some ⟨100, []⟩, none⟩ = .error .doubleInit := by
  have h : ScancodeStream.new ⟨none, none⟩ = .ok ⟨some ⟨100, []⟩, none⟩ := rfl
  exact ⟨h, (stream_double_init ⟨none, none⟩ ⟨some ⟨100, []⟩, none⟩ none 0 [] h).2.1⟩

/-- C10: a push from the interrupt handler before the queue is initialized
is non-fatal: it warns, drops the byte, and leaves the queue and waker
slot unchanged, whereas polling in the same uninitialized state panics. -/
theorem add_scancode_uninit_nonfatal (b w : Nat) (w0 : Option Nat) (mid : List Nat) :
    add_scancode ⟨none, w0⟩ b = (⟨none, w0⟩, [.warnUninit])
    ∧ ScancodeStream.poll_next ⟨none, w0⟩ w mid = .error .uninitPoll :=
  ⟨rfl, rfl⟩

end RustOS.keyboard
